import Mathlib

/-!
# Verification of the cps-faceID push-api camera monitor

Shallow embedding of the per-camera monitoring engine of `push.py`
(classes SimpleCompreFaceAPI and SimpleCameraMonitor) and theorems about
the frozen specification claims.

Modelling conventions:
* Python floats (timestamps, durations, similarities) are modelled by
  their exact decimal values as rationals.
* A path string is compared the way Python compares strings: by the
  lexicographic order on its characters, i.e. the order on String.data.
* I/O effects (the folder contents seen by glob/stat, the HTTP response
  or exception seen by requests) enter as explicit values of the types
  FileEntry, ScanOutcome and ApiOutcome; the functions translate what
  the code does with those values.
* The wall-clock timestamps that the code embeds into log lines and
  status messages, and the human-readable message texts, are
  presentation only and are not modelled; a published status keeps its
  color, recognized-names list and image filename.
* The loop runs single-threaded per camera, so the non-blocking
  processing_lock always succeeds and is_busy is always False at the
  check; the tick itself is instantaneous and sleeping advances the
  clock (the idealization the specification's timing scenario also
  uses).
-/

/- Core rational arithmetic is marked irreducible for the elaborator;
re-enable unfolding locally so that concrete runs evaluate with decide
(the kernel ignores reducibility annotations either way). -/
attribute [local semireducible] Rat.add Rat.mul Rat.sub Rat.inv

/-- A file visible in the camera folder, as the scan sees it: its path,
its modification time in seconds (os.path.getmtime) and its size in
bytes (os.path.getsize). -/
structure FileEntry where
  path : String
  mtime : ℚ
  size : ℕ
deriving Repr, DecidableEq

/-- Python string comparison: lexicographic on the character list
(String.lt is definitionally this relation). -/
def pathLt (a b : String) : Prop := a.data < b.data

/-- Non-strict counterpart of pathLt, used by the sort. -/
def pathLe (a b : String) : Prop := a.data ≤ b.data

instance : DecidableRel pathLt :=
  fun a b => inferInstanceAs (Decidable (a.data < b.data))

instance : DecidableRel pathLe :=
  fun a b => inferInstanceAs (Decidable (a.data ≤ b.data))

/-- Sort key of files.sort(): the file's path (the filename embeds the
capture timestamp). -/
def fileLe (f g : FileEntry) : Prop := pathLe f.path g.path

/-- Strict version of fileLe, what fileLe becomes on distinct paths. -/
def fileLt (f g : FileEntry) : Prop := pathLt f.path g.path

instance : DecidableRel fileLe :=
  fun f g => inferInstanceAs (Decidable (pathLe f.path g.path))

instance : IsTotal FileEntry fileLe :=
  ⟨fun f g => le_total f.path.data g.path.data⟩

instance : IsTrans FileEntry fileLe :=
  ⟨fun _ _ _ h h2 => le_trans h h2⟩

/-- Truth value of Python's `file_path > self.last_processed` guard,
taken vacuously true when the cursor is unset (the code short-circuits
on `not self.last_processed` first). -/
def afterCursor : Option String → String → Prop
  | none, _ => True
  | some lp, p => pathLt lp p

instance : ∀ (last : Option String) (p : String), Decidable (afterCursor last p)
  | none, _ => .isTrue trivial
  | some lp, p => inferInstanceAs (Decidable (pathLt lp p))

/-- The selection loop of SimpleCameraMonitor.get_newest_images
(push.py lines 96-110), over the files sorted by name: a file equal to
last_processed is skipped and sets the found flag; a file past the
cursor (cursor unset, flag set, or path strictly greater) is kept when
it is at least 0.5 seconds old and strictly larger than 3000 bytes; the
loop stops as soon as max_count files have been collected. -/
def selectLoop (last : Option String) (now : ℚ) (maxCount : ℕ) :
    List FileEntry → Bool → List String → List String
  | [], _, acc => acc
  | f :: rest, found, acc =>
    if last = some f.path then
      selectLoop last now maxCount rest true acc
    else if last = none ∨ found = true ∨ afterCursor last f.path then
      if 1/2 ≤ now - f.mtime ∧ 3000 < f.size then
        if maxCount ≤ (acc ++ [f.path]).length then acc ++ [f.path]
        else selectLoop last now maxCount rest found (acc ++ [f.path])
      else selectLoop last now maxCount rest found acc
    else selectLoop last now maxCount rest found acc

/-- SimpleCameraMonitor.get_newest_images (push.py lines 83-112), the
pure part: glob has produced `files` (each with its stat data), `now` is
time.time(); the list is sorted by filename and the selection loop runs
with the found flag clear and an empty accumulator. The try/except
wrapper is get_newest_images_io below. -/
def get_newest_images (files : List FileEntry) (last : Option String)
    (now : ℚ) (maxCount : ℕ) : List String :=
  if files = [] then []
  else selectLoop last now maxCount (List.insertionSort fileLe files) false []

/-- What the folder enumeration produced: either the glob/stat results,
or some exception raised along the way (unreadable folder, file deleted
between glob and stat, ...). -/
inductive ScanOutcome where
  | ok (files : List FileEntry)
  | failure (msg : String)
deriving Repr, DecidableEq

/-- get_newest_images with its try/except (push.py lines 85, 114-116):
any exception is logged and turned into the empty list. -/
def get_newest_images_io (scan : ScanOutcome) (last : Option String)
    (now : ℚ) (maxCount : ℕ) : List String :=
  match scan with
  | .ok files => get_newest_images files last now maxCount
  | .failure _ => []

/-- One subject candidate in a face entry of the service response; the
code reads x.get('similarity', 0) and x['subject'] (the latter presumed
present, as the HTTP contract documents). -/
structure Subject where
  subject : String
  similarity : ℚ
deriving Repr, DecidableEq

/-- One face entry of the service response's result list. -/
structure Face where
  subjects : List Subject
deriving Repr, DecidableEq

/-- The dict SimpleCompreFaceAPI.recognize_face returns: success flag,
the parsed result list when successful, the error text otherwise. (The
extra no_face key of the sentinel case is never read downstream and is
not modelled.) -/
structure ApiResult where
  success : Bool
  result : List Face
  error : String
deriving Repr, DecidableEq

/-- What the HTTP request attempt turned into, seen from inside the
try block: a 200 response with parsed faces, a non-200 response whose
body contains the "No face is found" sentinel, any other non-200
status, a requests timeout, or any other exception with its message
(including the OSError of an unopenable image file, since the open()
is inside the same try). -/
inductive ApiOutcome where
  | httpOk (faces : List Face)
  | noFaceBody (status : ℕ)
  | httpError (status : ℕ)
  | timeout
  | exc (msg : String)
deriving Repr, DecidableEq

/-- SimpleCompreFaceAPI.recognize_face (push.py lines 35-65): every
outcome becomes a result dict, no exception escapes. -/
def recognize_face : ApiOutcome → ApiResult
  | .httpOk faces => ⟨true, faces, ""⟩
  | .noFaceBody _ => ⟨true, [], ""⟩
  | .httpError s => ⟨false, [], "HTTP " ++ Nat.repr s⟩
  | .timeout => ⟨false, [], "Timeout"⟩
  | .exc msg => ⟨false, [], msg⟩

/-- Python max(subjects, key=lambda x: x.get('similarity', 0)) starting
from the first element: the current best is replaced only by a strictly
larger similarity, so ties keep the earliest subject. -/
def maxBySim (cur : Subject) : List Subject → Subject
  | [] => cur
  | s :: rest => maxBySim (if cur.similarity < s.similarity then s else cur) rest

/-- One iteration of the per-face loop of process_image (push.py lines
142-151): a face without subjects counts as unknown; otherwise the best
subject is recognized when its similarity is at least 0.7, and counts
as unknown below that. -/
def faceStep (acc : List String × ℕ) (face : Face) : List String × ℕ :=
  match face.subjects with
  | [] => (acc.1, acc.2 + 1)
  | s :: rest =>
    if 7/10 ≤ (maxBySim s rest).similarity then
      (acc.1 ++ [(maxBySim s rest).subject], acc.2)
    else (acc.1, acc.2 + 1)

/-- The whole per-face loop: recognized names in order, and the count
of unknown faces. -/
def classify_faces (faces : List Face) : List String × ℕ :=
  faces.foldl faceStep ([], 0)

/-- Character-list prefix test, auxiliary for the substring test. -/
def charsStart : List Char → List Char → Bool
  | [], _ => true
  | _ :: _, [] => false
  | a :: as, b :: bs => a == b && charsStart as bs

/-- Occurrence of pat as a contiguous substring of s. -/
def charsOccur (pat : List Char) : List Char → Bool
  | [] => charsStart pat []
  | c :: cs => charsStart pat (c :: cs) || charsOccur pat cs

/-- Python's `pat in s` on strings: contiguous substring occurrence. -/
def strContains (s pat : String) : Bool := charsOccur pat.data s.data

/-- One entry of the recognition_results.json history log (push.py
lines 237-242); the wall-clock timestamp field is presentation only and
not modelled. -/
structure HistoryEntry where
  camera : String
  image : String
  recognized : List String
deriving Repr, DecidableEq

/-- SimpleCameraMonitor.save_to_history (push.py lines 234-264), the
read-modify-write on the loaded log: append the new entry, and when the
log now holds more than 50 entries keep only the last 50 (Python
all_results[-50:]). Stated over an arbitrary entry type since the
truncation logic does not look at the entries. -/
def save_to_history {α : Type} (all_results : List α) (entry : α) : List α :=
  let appended := all_results ++ [entry]
  if 50 < appended.length then appended.drop (appended.length - 50)
  else appended

/-- One snapshot written by update_live_status (push.py lines 214-232):
status color, recognized names, image filename. The timestamp and the
human message text are presentation only and not modelled. -/
structure LiveStatus where
  status : String
  recognized : List String
  image_file : Option String
deriving Repr, DecidableEq

/-- The per-camera mutable state that classification updates: the
cursor and the history log (plus the fixed camera id the history entry
records). -/
structure MonitorState where
  camera_id : String
  last_processed : Option String
  history : List HistoryEntry
deriving Repr, DecidableEq

/-- os.path.basename: the part of the path after the last slash. -/
def basename (p : String) : String := (p.splitOn "/").getLastD p

/-- The outcome dispatch of process_image (push.py lines 131-177): on
success, no faces publishes gray, recognized names publish green and
append to the history, only-unknown faces publish red; on failure, an
error text containing "Timeout" publishes gray, anything else red. -/
def process_outcome (st : MonitorState) (filename : String)
    (result : ApiResult) : MonitorState × LiveStatus :=
  if result.success = true then
    if result.result = [] then
      (st, ⟨"gray", [], some filename⟩)
    else
      if (classify_faces result.result).1 = [] then
        (st, ⟨"red", [], some filename⟩)
      else
        let entry : HistoryEntry := ⟨st.camera_id, filename, (classify_faces result.result).1⟩
        ({st with history := save_to_history st.history entry},
         ⟨"green", (classify_faces result.result).1, some filename⟩)
  else
    if strContains result.error "Timeout" = true then
      (st, ⟨"gray", [], some filename⟩)
    else
      (st, ⟨"red", [], some filename⟩)

/-- SimpleCameraMonitor.process_image (push.py lines 118-180): publish
the processing status, call the client, dispatch on the outcome, and -
on line 180, outside every branch - advance the cursor to this image's
path. Returns the new state and the statuses published, in order. -/
def process_image (st : MonitorState) (image_path : String)
    (api : ApiOutcome) : MonitorState × List LiveStatus :=
  let r := process_outcome st (basename image_path) (recognize_face api)
  ({r.1 with last_processed := some image_path},
   ⟨"processing", [], some (basename image_path)⟩ :: [r.2])

/-- The adaptive sleep of run_loop (push.py lines 318-330), computed
from the consecutive-empty counter after this tick updated it: 0 means
images were just processed (0.2s), below 3 means recently active (30%
of the check interval), below 10 is the baseline interval, and from 10
on it is 120% of it. -/
def next_delay (consecutive_empty : ℕ) (check_interval : ℚ) : ℚ :=
  if consecutive_empty = 0 then 1/5
  else if consecutive_empty < 3 then check_interval * (3/10)
  else if consecutive_empty < 10 then check_interval
  else check_interval * (6/5)

/-- The loop-local state of run_loop (push.py lines 266-330) around the
monitor state: the consecutive-empty counter, the time of the last
heartbeat publish (initialized to 0, i.e. the epoch), and the current
value of time.time(). -/
structure TickState where
  mon : MonitorState
  consecutive_empty : ℕ
  last_heartbeat : ℚ
  now : ℚ
deriving Repr, DecidableEq

/-- The batch loop of run_loop (push.py lines 294-295): process each
found image in order; `env` tells how the service call for a given
image path turns out. Accumulates the published statuses. -/
def processBatch (mon : MonitorState) (imgs : List String)
    (env : String → ApiOutcome) : MonitorState × List LiveStatus :=
  imgs.foldl
    (fun acc p =>
      ((process_image acc.1 p (env p)).1, acc.2 ++ (process_image acc.1 p (env p)).2))
    (mon, [])

/-- One iteration of run_loop (push.py lines 277-330): read the clock,
scan; an empty scan increments the consecutive-empty counter and - when
more than 30 seconds have passed since the last heartbeat - publishes
the gray heartbeat status and resets the heartbeat clock; a non-empty
scan processes the batch and zeroes the counter. Finally the adaptive
sleep advances the clock. Returns the new state and the statuses this
tick published. -/
def monitor_tick (st : TickState) (scan : ScanOutcome)
    (env : String → ApiOutcome) (check_interval : ℚ) :
    TickState × List LiveStatus :=
  let imgs := get_newest_images_io scan st.mon.last_processed st.now 3
  if imgs = [] then
    let ce := st.consecutive_empty + 1
    if 30 < st.now - st.last_heartbeat then
      (⟨st.mon, ce, st.now, st.now + next_delay ce check_interval⟩,
       [⟨"gray", [], none⟩])
    else
      (⟨st.mon, ce, st.last_heartbeat, st.now + next_delay ce check_interval⟩, [])
  else
    let r := processBatch st.mon imgs env
    (⟨r.1, 0, st.last_heartbeat, st.now + next_delay 0 check_interval⟩, r.2)

/-- A run of consecutive ticks in which every scan returns zero
candidates; yields the per-tick heartbeat flags (true when that tick
published the idle heartbeat). -/
def run_empty_ticks (check_interval : ℚ) : ℕ → TickState → List Bool
  | 0, _ => []
  | n + 1, st =>
    (!(monitor_tick st (ScanOutcome.ok []) (fun _ => ApiOutcome.timeout) check_interval).2.isEmpty) ::
      run_empty_ticks check_interval n
        (monitor_tick st (ScanOutcome.ok []) (fun _ => ApiOutcome.timeout) check_interval).1

/-! ## Lemmas about the selection loop -/

theorem selectLoop_mem_acc (last : Option String) (now : ℚ) (mc : ℕ) :
    ∀ (l : List FileEntry) (found : Bool) (acc : List String) (p : String),
      p ∈ acc → p ∈ selectLoop last now mc l found acc := by
  intro l
  induction l with
  | nil => intro found acc p hp; simpa [selectLoop] using hp
  | cons f rest ih =>
    intro found acc p hp
    simp only [selectLoop]
    split
    · exact ih true acc p hp
    · split
      · split
        · split
          · exact List.mem_append_left _ hp
          · exact ih found (acc ++ [f.path]) p (List.mem_append_left _ hp)
        · exact ih found acc p hp
      · exact ih found acc p hp

theorem selectLoop_sound (last : Option String) (now : ℚ) (mc : ℕ) :
    ∀ (l : List FileEntry) (found : Bool) (acc : List String) (p : String),
      p ∈ selectLoop last now mc l found acc →
      p ∈ acc ∨ ∃ f ∈ l, p = f.path ∧ 1/2 ≤ now - f.mtime ∧ 3000 < f.size := by
  intro l
  induction l with
  | nil => intro found acc p hp; simp only [selectLoop] at hp; exact Or.inl hp
  | cons f rest ih =>
    intro found acc p hp
    have lift : (p ∈ acc ∨ ∃ g ∈ rest, p = g.path ∧ 1/2 ≤ now - g.mtime ∧ 3000 < g.size) →
        p ∈ acc ∨ ∃ g ∈ f :: rest, p = g.path ∧ 1/2 ≤ now - g.mtime ∧ 3000 < g.size := by
      rintro (h | ⟨g, hg, hs⟩)
      · exact Or.inl h
      · exact Or.inr ⟨g, List.mem_cons_of_mem f hg, hs⟩
    simp only [selectLoop] at hp
    split at hp
    · exact lift (ih true acc p hp)
    · split at hp
      · split at hp
        · rename_i hcond hfilter
          have hacc2 : p ∈ acc ++ [f.path] →
              p ∈ acc ∨ ∃ g ∈ f :: rest, p = g.path ∧ 1/2 ≤ now - g.mtime ∧ 3000 < g.size := by
            intro hp2
            rcases List.mem_append.1 hp2 with h | h
            · exact Or.inl h
            · exact Or.inr ⟨f, List.mem_cons_self f rest,
                List.mem_singleton.1 h, hfilter.1, hfilter.2⟩
          split at hp
          · exact hacc2 hp
          · rcases ih found (acc ++ [f.path]) p hp with h | ⟨g, hg, hs⟩
            · exact hacc2 h
            · exact Or.inr ⟨g, List.mem_cons_of_mem f hg, hs⟩
        · exact lift (ih found acc p hp)
      · exact lift (ih found acc p hp)

theorem selectLoop_complete (last : Option String) (now : ℚ) (mc : ℕ) :
    ∀ (l : List FileEntry) (found : Bool) (acc : List String) (f : FileEntry),
      f ∈ l → afterCursor last f.path → 1/2 ≤ now - f.mtime → 3000 < f.size →
      f.path ∈ selectLoop last now mc l found acc ∨
        mc ≤ (selectLoop last now mc l found acc).length := by
  intro l
  induction l with
  | nil => intro _ _ f hf; exact absurd hf (List.not_mem_nil f)
  | cons g rest ih =>
    intro found acc f hf hcur hage hsize
    simp only [selectLoop]
    rcases List.mem_cons.1 hf with hfg | hfr
    · subst hfg
      split
      · rename_i hlast
        exact absurd (hlast ▸ hcur : afterCursor (some f.path) f.path)
          (lt_irrefl f.path.data)
      · split
        · split
          · split
            · rename_i hstop
              exact Or.inr (by simpa using hstop)
            · exact Or.inl (selectLoop_mem_acc last now mc rest found (acc ++ [f.path]) f.path
                (List.mem_append_right acc (List.mem_singleton.2 rfl)))
          · rename_i hfilter
            exact absurd ⟨hage, hsize⟩ hfilter
        · rename_i hcond
          exact absurd (Or.inr (Or.inr hcur)) hcond
    · split
      · exact ih true acc f hfr hcur hage hsize
      · split
        · split
          · split
            · rename_i hstop
              exact Or.inr (by simpa using hstop)
            · exact ih found (acc ++ [g.path]) f hfr hcur hage hsize
          · exact ih found acc f hfr hcur hage hsize
        · exact ih found acc f hfr hcur hage hsize

theorem selectLoop_after (lp : String) (now : ℚ) (mc : ℕ) :
    ∀ (l : List FileEntry) (found : Bool) (acc : List String),
      List.Pairwise fileLt l →
      (found = true → ∀ g ∈ l, pathLt lp g.path) →
      (∀ a ∈ acc, pathLt lp a) →
      ∀ p ∈ selectLoop (some lp) now mc l found acc, pathLt lp p := by
  intro l
  induction l with
  | nil => intro found acc _ _ hacc p hp; exact hacc p (by simpa [selectLoop] using hp)
  | cons f rest ih =>
    intro found acc hpw hfound hacc p hp
    have hpwrest := (List.pairwise_cons.1 hpw).2
    have hhead := (List.pairwise_cons.1 hpw).1
    simp only [selectLoop] at hp
    split at hp
    · rename_i hlast
      have hfp : f.path = lp := (Option.some.inj hlast).symm
      exact ih true acc hpwrest
        (fun _ g hg => hfp ▸ hhead g hg) hacc p hp
    · split at hp
      · rename_i hcond
        have hflp : pathLt lp f.path := by
          rcases hcond with h | h | h
          · exact absurd h (by simp)
          · exact hfound h f (List.mem_cons_self f rest)
          · exact h
        have hacc2 : ∀ a ∈ acc ++ [f.path], pathLt lp a := by
          intro a ha
          rcases List.mem_append.1 ha with h | h
          · exact hacc a h
          · exact (List.mem_singleton.1 h) ▸ hflp
        split at hp
        · split at hp
          · exact hacc2 p hp
          · exact ih found (acc ++ [f.path]) hpwrest
              (fun hf g hg => hfound hf g (List.mem_cons_of_mem f hg)) hacc2 p hp
        · exact ih found acc hpwrest
            (fun hf g hg => hfound hf g (List.mem_cons_of_mem f hg)) hacc p hp
      · exact ih found acc hpwrest
          (fun hf g hg => hfound hf g (List.mem_cons_of_mem f hg)) hacc p hp

theorem selectLoop_pairwise (last : Option String) (now : ℚ) (mc : ℕ) :
    ∀ (l : List FileEntry) (found : Bool) (acc : List String),
      List.Pairwise fileLt l →
      List.Pairwise pathLt acc →
      (∀ a ∈ acc, ∀ g ∈ l, pathLt a g.path) →
      List.Pairwise pathLt (selectLoop last now mc l found acc) := by
  intro l
  induction l with
  | nil => intro found acc _ hacc _; simpa [selectLoop] using hacc
  | cons f rest ih =>
    intro found acc hpw hacc hcross
    have hpwrest := (List.pairwise_cons.1 hpw).2
    have hhead := (List.pairwise_cons.1 hpw).1
    have hcrossrest : ∀ a ∈ acc, ∀ g ∈ rest, pathLt a g.path :=
      fun a ha g hg => hcross a ha g (List.mem_cons_of_mem f hg)
    simp only [selectLoop]
    split
    · exact ih true acc hpwrest hacc hcrossrest
    · split
      · have hacc2 : List.Pairwise pathLt (acc ++ [f.path]) := by
          refine List.pairwise_append.2 ⟨hacc, List.pairwise_singleton _ _, ?_⟩
          intro a ha b hb
          exact (List.mem_singleton.1 hb) ▸ hcross a ha f (List.mem_cons_self f rest)
        have hcross2 : ∀ a ∈ acc ++ [f.path], ∀ g ∈ rest, pathLt a g.path := by
          intro a ha g hg
          rcases List.mem_append.1 ha with h | h
          · exact hcrossrest a h g hg
          · exact (List.mem_singleton.1 h) ▸ hhead g hg
        split
        · split
          · exact hacc2
          · exact ih found (acc ++ [f.path]) hpwrest hacc2 hcross2
        · exact ih found acc hpwrest hacc hcrossrest
      · exact ih found acc hpwrest hacc hcrossrest

/-- When the globbed files have pairwise distinct paths (glob yields
each path once), the name sort is strictly increasing. -/
theorem sorted_fileLt (files : List FileEntry)
    (hnd : List.Pairwise (fun f g => f.path ≠ g.path) files) :
    List.Pairwise fileLt (List.insertionSort fileLe files) := by
  have hs : List.Sorted fileLe (List.insertionSort fileLe files) :=
    List.sorted_insertionSort fileLe files
  have hnd2 : List.Pairwise (fun f g : FileEntry => f.path ≠ g.path)
      (List.insertionSort fileLe files) :=
    (List.Perm.pairwise_iff (fun h he => h he.symm)
      (List.perm_insertionSort fileLe files)).2 hnd
  refine (List.Pairwise.and hs hnd2).imp ?_
  intro f g h
  exact lt_of_le_of_ne h.1 (fun hdata => h.2 (String.ext hdata))

theorem get_newest_images_sound (files : List FileEntry) (last : Option String)
    (now : ℚ) (mc : ℕ) :
    ∀ p ∈ get_newest_images files last now mc,
      ∃ f ∈ files, p = f.path ∧ 1/2 ≤ now - f.mtime ∧ 3000 < f.size := by
  intro p hp
  unfold get_newest_images at hp
  split at hp
  · exact absurd hp (List.not_mem_nil p)
  · rcases selectLoop_sound last now mc (List.insertionSort fileLe files) false [] p hp with
      h | ⟨f, hf, hs⟩
    · exact absurd h (List.not_mem_nil p)
    · exact ⟨f, (List.perm_insertionSort fileLe files).mem_iff.1 hf, hs⟩

theorem get_newest_images_complete (files : List FileEntry) (last : Option String)
    (now : ℚ) (mc : ℕ) (f : FileEntry)
    (hf : f ∈ files) (hcur : afterCursor last f.path)
    (hage : 1/2 ≤ now - f.mtime) (hsize : 3000 < f.size)
    (hroom : (get_newest_images files last now mc).length < mc) :
    f.path ∈ get_newest_images files last now mc := by
  unfold get_newest_images at hroom ⊢
  by_cases hnil : files = []
  · exact absurd (hnil ▸ hf) (List.not_mem_nil f)
  · rw [if_neg hnil] at hroom ⊢
    rcases selectLoop_complete last now mc (List.insertionSort fileLe files) false [] f
      ((List.perm_insertionSort fileLe files).mem_iff.2 hf) hcur hage hsize with h | h
    · exact h
    · exact absurd hroom (not_lt.2 h)

theorem get_newest_images_after (files : List FileEntry) (lp : String)
    (now : ℚ) (mc : ℕ)
    (hnd : List.Pairwise (fun f g => f.path ≠ g.path) files) :
    ∀ p ∈ get_newest_images files (some lp) now mc, pathLt lp p := by
  intro p hp
  unfold get_newest_images at hp
  split at hp
  · exact absurd hp (List.not_mem_nil p)
  · exact selectLoop_after lp now mc (List.insertionSort fileLe files) false []
      (sorted_fileLt files hnd) (by intro h; exact absurd h (by simp))
      (by intro a ha; exact absurd ha (List.not_mem_nil a)) p hp

theorem get_newest_images_pairwise (files : List FileEntry) (last : Option String)
    (now : ℚ) (mc : ℕ)
    (hnd : List.Pairwise (fun f g => f.path ≠ g.path) files) :
    List.Pairwise pathLt (get_newest_images files last now mc) := by
  unfold get_newest_images
  split
  · exact List.Pairwise.nil
  · exact selectLoop_pairwise last now mc (List.insertionSort fileLe files) false []
      (sorted_fileLt files hnd) List.Pairwise.nil
      (by intro a ha; exact absurd ha (List.not_mem_nil a))

/-! ## Lemmas about substring search and the HTTP error text -/

theorem charsStart_sub : ∀ (pat s : List Char),
    charsStart pat s = true → ∀ c ∈ pat, c ∈ s := by
  intro pat
  induction pat with
  | nil => intro s _ c hc; exact absurd hc (List.not_mem_nil c)
  | cons a as ih =>
    intro s h c hc
    cases s with
    | nil => exact absurd h (by simp [charsStart])
    | cons b bs =>
      simp only [charsStart, Bool.and_eq_true, beq_iff_eq] at h
      rcases List.mem_cons.1 hc with hca | hcas
      · exact hca ▸ h.1 ▸ List.mem_cons_self b bs
      · exact List.mem_cons_of_mem b (ih bs h.2 c hcas)

theorem charsOccur_sub : ∀ (s pat : List Char),
    charsOccur pat s = true → ∀ c ∈ pat, c ∈ s := by
  intro s
  induction s with
  | nil => intro pat h c hc; exact charsStart_sub pat [] h c hc
  | cons b bs ih =>
    intro pat h c hc
    simp only [charsOccur, Bool.or_eq_true] at h
    rcases h with h | h
    · exact charsStart_sub pat (b :: bs) h c hc
    · exact List.mem_cons_of_mem b (ih pat h c hc)

theorem digitChar_mem_digits :
    ∀ m, m < 10 → Nat.digitChar m ∈ ['0','1','2','3','4','5','6','7','8','9'] := by
  decide

theorem toDigitsCore_chars :
    ∀ (fuel n : ℕ) (ds : List Char),
      (∀ c ∈ ds, c ∈ ['0','1','2','3','4','5','6','7','8','9']) →
      ∀ c ∈ Nat.toDigitsCore 10 fuel n ds,
        c ∈ ['0','1','2','3','4','5','6','7','8','9'] := by
  intro fuel
  induction fuel with
  | zero => intro n ds h c hc; exact h c hc
  | succ fuel ih =>
    intro n ds h c hc
    simp only [Nat.toDigitsCore] at hc
    have hdigit : Nat.digitChar (n % 10) ∈ ['0','1','2','3','4','5','6','7','8','9'] :=
      digitChar_mem_digits (n % 10) (Nat.mod_lt n (by decide))
    have hds : ∀ c ∈ (Nat.digitChar (n % 10) :: ds),
        c ∈ ['0','1','2','3','4','5','6','7','8','9'] := by
      intro c hc2
      rcases List.mem_cons.1 hc2 with h1 | h2
      · exact h1 ▸ hdigit
      · exact h c h2
    split at hc
    · exact hds c hc
    · exact ih (n / 10) (Nat.digitChar (n % 10) :: ds) hds c hc

theorem repr_chars (n : ℕ) :
    ∀ c ∈ (Nat.repr n).data, c ∈ ['0','1','2','3','4','5','6','7','8','9'] := by
  intro c hc
  have : (Nat.repr n).data = Nat.toDigitsCore 10 (n + 1) n [] := rfl
  rw [this] at hc
  exact toDigitsCore_chars (n + 1) n [] (by intro c hc; exact absurd hc (List.not_mem_nil c)) c hc

/-- The error text "HTTP <status>" never contains "Timeout" (its second
character would have to be a lowercase letter drawn from "HTTP " or a
digit). -/
theorem httpError_noTimeout (s : ℕ) :
    strContains ("HTTP " ++ Nat.repr s) "Timeout" = false := by
  by_contra hctr
  have h : charsOccur "Timeout".data ("HTTP " ++ Nat.repr s).data = true := by
    revert hctr
    unfold strContains
    cases charsOccur "Timeout".data ("HTTP " ++ Nat.repr s).data
    · intro hctr; exact absurd rfl hctr
    · intro _; rfl
  have hi : 'i' ∈ ("HTTP " ++ Nat.repr s).data :=
    charsOccur_sub _ _ h 'i' (by decide)
  rw [String.data_append] at hi
  rcases List.mem_append.1 hi with h1 | h2
  · exact absurd h1 (by decide)
  · exact absurd (repr_chars s 'i' h2) (by decide)

/-! ## Lemmas about the per-face maximum and the cursor -/

theorem maxBySim_mem : ∀ (rest : List Subject) (cur : Subject),
    maxBySim cur rest ∈ cur :: rest := by
  intro rest
  induction rest with
  | nil => intro cur; exact List.mem_cons_self cur []
  | cons s rest ih =>
    intro cur
    simp only [maxBySim]
    split
    · exact List.mem_cons_of_mem cur (ih s)
    · rcases List.mem_cons.1 (ih cur) with h | h
      · rw [h]; exact List.mem_cons_self cur (s :: rest)
      · exact List.mem_cons_of_mem cur (List.mem_cons_of_mem s h)

theorem maxBySim_le : ∀ (rest : List Subject) (cur : Subject),
    ∀ t ∈ cur :: rest, t.similarity ≤ (maxBySim cur rest).similarity := by
  intro rest
  induction rest with
  | nil =>
    intro cur t ht
    rcases List.mem_cons.1 ht with h | h
    · exact le_of_eq (congrArg Subject.similarity h)
    · exact absurd h (List.not_mem_nil t)
  | cons s rest ih =>
    intro cur t ht
    simp only [maxBySim]
    set c2 := if cur.similarity < s.similarity then s else cur with hc2
    have hcur : cur.similarity ≤ c2.similarity := by
      rw [hc2]; split
      · exact le_of_lt (by assumption)
      · exact le_refl _
    have hs : s.similarity ≤ c2.similarity := by
      rw [hc2]; split
      · exact le_refl _
      · exact not_lt.1 (by assumption)
    have hmax : c2.similarity ≤ (maxBySim c2 rest).similarity :=
      ih c2 c2 (List.mem_cons_self c2 rest)
    rcases List.mem_cons.1 ht with h1 | h23
    · subst h1; exact le_trans hcur hmax
    · rcases List.mem_cons.1 h23 with h2 | h3
      · subst h2; exact le_trans hs hmax
      · exact ih c2 t (List.mem_cons_of_mem c2 h3)

/-- Line 180 of push.py runs outside every branch of process_image. -/
theorem process_image_cursor (st : MonitorState) (image_path : String)
    (api : ApiOutcome) :
    (process_image st image_path api).1.last_processed = some image_path := rfl

/-- Also outside every branch: exactly the processing status and one
outcome status get published, in that order. -/
theorem process_image_publishes (st : MonitorState) (image_path : String)
    (api : ApiOutcome) :
    (process_image st image_path api).2 =
      ⟨"processing", [], some (basename image_path)⟩ ::
        [(process_outcome st (basename image_path) (recognize_face api)).2] := rfl

/-- The batch fold threads the cursor: after the batch it is the last
processed path (or unchanged when the batch is empty). -/
theorem processBatch_cursor_aux (env : String → ApiOutcome) :
    ∀ (imgs : List String) (start : MonitorState × List LiveStatus),
      (imgs.foldl
        (fun acc p =>
          ((process_image acc.1 p (env p)).1, acc.2 ++ (process_image acc.1 p (env p)).2))
        start).1.last_processed =
      imgs.foldl (fun _ p => some p) start.1.last_processed := by
  intro imgs
  induction imgs with
  | nil => intro start; rfl
  | cons p rest ih =>
    intro start
    simp only [List.foldl_cons]
    rw [ih (((process_image start.1 p (env p)).1,
      start.2 ++ (process_image start.1 p (env p)).2))]
    rfl

theorem processBatch_cursor (mon : MonitorState) (imgs : List String)
    (env : String → ApiOutcome) :
    (processBatch mon imgs env).1.last_processed =
      imgs.foldl (fun _ p => some p) mon.last_processed :=
  processBatch_cursor_aux env imgs (mon, [])

/-! ## Claim theorems -/

/-- C2, counterexample to the claim as stated: a file of exactly 3000
bytes is not smaller than 3000 bytes and is well over 0.5s old, the
cursor is unset and the batch cap is not reached, yet the scan does not
select it - the code keeps only files strictly larger than 3000 bytes. -/
theorem scan_filter_claim_false :
    (1 : ℚ) - 0 ≥ 1/2 ∧ ¬ (3000 < 3000) ∧
      get_newest_images [⟨"a.jpg", 0, 3000⟩] none 1 3 = [] := by decide

/-- C2 (amended): a selected candidate is always at least 0.5 seconds
old (boundary inclusive) and strictly larger than 3000 bytes (so a file
of exactly 3000 bytes is rejected); conversely every file meeting these
bounds that sorts strictly after the cursor is selected whenever the
returned batch has not reached the cap. -/
theorem scan_filter_boundaries (files : List FileEntry) (last : Option String)
    (now : ℚ) (mc : ℕ) :
    (∀ p ∈ get_newest_images files last now mc,
      ∃ f ∈ files, p = f.path ∧ 1/2 ≤ now - f.mtime ∧ 3000 < f.size) ∧
    (∀ f ∈ files, afterCursor last f.path → 1/2 ≤ now - f.mtime → 3000 < f.size →
      (get_newest_images files last now mc).length < mc →
      f.path ∈ get_newest_images files last now mc) :=
  ⟨get_newest_images_sound files last now mc,
   fun f hf hcur hage hsize hroom =>
     get_newest_images_complete files last now mc f hf hcur hage hsize hroom⟩

/-- Witness for scan_filter_boundaries: a file exactly 0.5s old and of
3001 bytes, past an unset cursor, is selected. -/
theorem scan_filter_boundaries_witness :
    "a.jpg" ∈ get_newest_images [⟨"a.jpg", 0, 3001⟩] none (1/2) 3 := by
  have h := scan_filter_boundaries [⟨"a.jpg", 0, 3001⟩] none (1/2) 3
  exact h.2 ⟨"a.jpg", 0, 3001⟩ (by decide) (by decide) (by decide) (by decide) (by decide)

/-- C3: whatever the service call turned into - recognized faces,
unknown faces, no face, timeout, HTTP error or exception - processing
an image advances the cursor to that image's path, and publishes the
processing status plus exactly one outcome status. -/
theorem cursor_advances_every_outcome (st : MonitorState) (image_path : String)
    (api : ApiOutcome) :
    (process_image st image_path api).1.last_processed = some image_path ∧
    (process_image st image_path api).2.length = 2 :=
  ⟨process_image_cursor st image_path api, rfl⟩

/-- C4: for a face with a nonempty subject list, the per-face loop
works on the subject of maximum similarity (ties keeping the earliest),
appends its name to the recognized list when that similarity is at
least 0.7 (inclusive boundary), and counts the face as unknown when it
is strictly below 0.7. -/
theorem best_subject_threshold (face : Face) (s : Subject) (rest : List Subject)
    (h : face.subjects = s :: rest) :
    maxBySim s rest ∈ face.subjects ∧
    (∀ t ∈ face.subjects, t.similarity ≤ (maxBySim s rest).similarity) ∧
    (7/10 ≤ (maxBySim s rest).similarity →
      ∀ acc, faceStep acc face = (acc.1 ++ [(maxBySim s rest).subject], acc.2)) ∧
    ((maxBySim s rest).similarity < 7/10 →
      ∀ acc, faceStep acc face = (acc.1, acc.2 + 1)) := by
  refine ⟨by rw [h]; exact maxBySim_mem rest s,
    by rw [h]; exact maxBySim_le rest s, ?_, ?_⟩
  · intro hge acc
    simp only [faceStep, h]
    rw [if_pos hge]
  · intro hlt acc
    simp only [faceStep, h]
    rw [if_neg (not_le.2 hlt)]

/-- Witness for best_subject_threshold: similarity exactly 0.7 is
recognized, 0.6999 is counted unknown. -/
theorem best_subject_threshold_witness :
    faceStep ([], 0) ⟨[⟨"alice", 7/10⟩]⟩ = (["alice"], 0) ∧
    faceStep ([], 0) ⟨[⟨"bob", 6999/10000⟩]⟩ = ([], 1) := by
  have h1 := best_subject_threshold ⟨[⟨"alice", 7/10⟩]⟩ ⟨"alice", 7/10⟩ [] rfl
  have h2 := best_subject_threshold ⟨[⟨"bob", 6999/10000⟩]⟩ ⟨"bob", 6999/10000⟩ [] rfl
  constructor
  · have := h1.2.2.1 (by decide) ([], 0)
    simpa [maxBySim] using this
  · have := h2.2.2.2 (by decide) ([], 0)
    simpa [maxBySim] using this

/-- C5: appending to the history log keeps at most 50 entries, puts the
new entry last, keeps the surviving entries in their old relative order
(the result is a suffix of the appended log), leaves logs of up to 49
entries untouched apart from the append, and evicts exactly the oldest
entry when a 51st is appended. -/
theorem history_bounded {α : Type} (l : List α) (e : α) :
    (save_to_history l e).length ≤ 50 ∧
    (save_to_history l e).getLast? = some e ∧
    save_to_history l e <:+ l ++ [e] ∧
    (l.length ≤ 49 → save_to_history l e = l ++ [e]) ∧
    (l.length = 50 → save_to_history l e = l.drop 1 ++ [e]) := by
  simp only [save_to_history]
  have hlen : (l ++ [e]).length = l.length + 1 := by simp
  by_cases h : 50 < (l ++ [e]).length
  · rw [if_pos h]
    have hle : (l ++ [e]).length - 50 ≤ l.length := by omega
    refine ⟨?_, ?_, List.drop_suffix _ _, ?_, ?_⟩
    · rw [List.length_drop]; omega
    · rw [List.drop_append_of_le_length hle, List.getLast?_concat]
    · intro h49; omega
    · intro h50
      rw [List.drop_append_of_le_length hle, hlen, h50]
  · rw [if_neg h]
    refine ⟨by omega, List.getLast?_concat l, List.suffix_refl _, fun _ => rfl, ?_⟩
    intro h50; omega

/-- Witness for history_bounded: appending a 51st entry to a full log
keeps 50 entries and evicts the oldest. -/
theorem history_bounded_witness :
    (save_to_history (List.replicate 50 (0 : ℕ)) 1).length ≤ 50 ∧
    save_to_history (List.replicate 50 (0 : ℕ)) 1 = List.replicate 49 0 ++ [1] := by
  have h := history_bounded (List.replicate 50 (0 : ℕ)) 1
  refine ⟨h.1, ?_⟩
  rw [h.2.2.2.2 (by decide)]
  decide

/-- C6: when the folder holds pairwise distinct paths, the cursor value
followed by the scanned batch is strictly increasing in lexicographic
path order - every candidate sorts strictly after the current cursor
and the batch itself is strictly ascending - and processing the batch
moves the cursor along exactly these paths, ending at the last one. -/
theorem cursor_monotone (files : List FileEntry) (last : Option String)
    (now : ℚ) (mc : ℕ)
    (hnd : List.Pairwise (fun f g => f.path ≠ g.path) files) :
    List.Pairwise pathLt (last.toList ++ get_newest_images files last now mc) ∧
    (∀ (mon : MonitorState) (env : String → ApiOutcome),
      mon.last_processed = last →
      (processBatch mon (get_newest_images files last now mc) env).1.last_processed =
        (get_newest_images files last now mc).foldl (fun _ p => some p) last) := by
  constructor
  · cases last with
    | none => simpa using get_newest_images_pairwise files none now mc hnd
    | some lp =>
      refine List.pairwise_append.2 ⟨?_, get_newest_images_pairwise files (some lp) now mc hnd, ?_⟩
      · simp
      · intro a ha b hb
        have : a = lp := by simpa using ha
        exact this ▸ get_newest_images_after files lp now mc hnd b hb
  · intro mon env hm
    rw [processBatch_cursor, hm]

/-- Witness for cursor_monotone: two fresh files past the cursor are
returned in ascending order and the batch leaves the cursor on the
later one. -/
theorem cursor_monotone_witness :
    List.Pairwise pathLt ((some "a.jpg").toList ++
      get_newest_images [⟨"b.jpg", 0, 4000⟩, ⟨"c.jpg", 0, 4000⟩] (some "a.jpg") 1 3) ∧
    (processBatch ⟨"cam", some "a.jpg", []⟩
        (get_newest_images [⟨"b.jpg", 0, 4000⟩, ⟨"c.jpg", 0, 4000⟩] (some "a.jpg") 1 3)
        (fun _ => ApiOutcome.timeout)).1.last_processed = some "c.jpg" := by
  have h := cursor_monotone [⟨"b.jpg", 0, 4000⟩, ⟨"c.jpg", 0, 4000⟩] (some "a.jpg") 1 3
    (by decide)
  refine ⟨h.1, ?_⟩
  rw [h.2 ⟨"cam", some "a.jpg", []⟩ (fun _ => ApiOutcome.timeout) rfl]
  decide

/-- C7: a timeout of the recognition request is published gray, while a
non-success HTTP status (whose error text "HTTP <code>" never contains
"Timeout") and any other failure whose message does not contain
"Timeout" - connection refused, DNS resolution errors and the like -
are published red. -/
theorem timeout_gray_service_error_red (st : MonitorState) (p : String) :
    ((process_image st p ApiOutcome.timeout).2.map LiveStatus.status =
      ["processing", "gray"]) ∧
    (∀ s : ℕ, (process_image st p (ApiOutcome.httpError s)).2.map LiveStatus.status =
      ["processing", "red"]) ∧
    (∀ msg : String, strContains msg "Timeout" = false →
      (process_image st p (ApiOutcome.exc msg)).2.map LiveStatus.status =
        ["processing", "red"]) := by
  refine ⟨rfl, ?_, ?_⟩
  · intro s
    simp [process_image, process_outcome, recognize_face, httpError_noTimeout s]
  · intro msg hmsg
    simp [process_image, process_outcome, recognize_face, hmsg]

/-- Witness for timeout_gray_service_error_red: a connection-refused
message is red, a timeout is gray, HTTP 502 is red. -/
theorem timeout_gray_service_error_red_witness :
    ((process_image ⟨"cam", none, []⟩ "x.jpg" ApiOutcome.timeout).2.map LiveStatus.status =
      ["processing", "gray"]) ∧
    ((process_image ⟨"cam", none, []⟩ "x.jpg" (ApiOutcome.httpError 502)).2.map LiveStatus.status =
      ["processing", "red"]) ∧
    ((process_image ⟨"cam", none, []⟩ "x.jpg"
        (ApiOutcome.exc "Connection refused")).2.map LiveStatus.status =
      ["processing", "red"]) := by
  have h := timeout_gray_service_error_red ⟨"cam", none, []⟩ "x.jpg"
  exact ⟨h.1, h.2.1 502, h.2.2 "Connection refused" (by decide)⟩

/-- C8: the adaptive delay is exactly the four-step staircase of the
consecutive-empty counter - 0 ticks: 0.2s; 1-2 ticks: 30% of the
baseline interval; 3-9 ticks: the baseline interval; 10 or more: 120%
of it - and at the default baseline of 1.5s the staircase is monotone
in the counter. -/
theorem adaptive_delay_staircase (ci : ℚ) :
    next_delay 0 ci = 1/5 ∧
    (∀ ce, 1 ≤ ce → ce ≤ 2 → next_delay ce ci = ci * (3/10)) ∧
    (∀ ce, 3 ≤ ce → ce ≤ 9 → next_delay ce ci = ci) ∧
    (∀ ce, 10 ≤ ce → next_delay ce ci = ci * (6/5)) ∧
    (∀ ce ce2, ce ≤ ce2 → next_delay ce (3/2) ≤ next_delay ce2 (3/2)) := by
  refine ⟨rfl, ?_, ?_, ?_, ?_⟩
  · intro ce h1 h2
    unfold next_delay
    rw [if_neg (by omega), if_pos (by omega)]
  · intro ce h1 h2
    unfold next_delay
    rw [if_neg (by omega), if_neg (by omega), if_pos (by omega)]
  · intro ce h1
    unfold next_delay
    rw [if_neg (by omega), if_neg (by omega), if_neg (by omega)]
  · intro ce ce2 h
    unfold next_delay
    split_ifs <;> first | rfl | omega

/-- Witness for adaptive_delay_staircase at the 1.5s default: the four
step values and one monotonicity instance. -/
theorem adaptive_delay_staircase_witness :
    next_delay 0 (3/2) = 1/5 ∧ next_delay 1 (3/2) = (3/2) * (3/10) ∧
    next_delay 5 (3/2) = 3/2 ∧ next_delay 12 (3/2) = (3/2) * (6/5) ∧
    next_delay 2 (3/2) ≤ next_delay 11 (3/2) := by
  have h := adaptive_delay_staircase (3/2)
  exact ⟨h.1, h.2.1 1 (by decide) (by decide), h.2.2.1 5 (by decide) (by decide),
    h.2.2.2.1 12 (by decide), h.2.2.2.2 2 11 (by decide)⟩

/-- C9: an image path whose file cannot be opened (deleted by the
producer's retention cleanup, unreadable, ...) surfaces as the generic
exception case of recognize_face's try/except: the call returns a
result dict with success false carrying the error message instead of
raising, and processing such an image still advances the cursor past
it. -/
theorem classify_total_on_failure (msg : String) (st : MonitorState) (p : String) :
    recognize_face (ApiOutcome.exc msg) = ⟨false, [], msg⟩ ∧
    (process_image st p (ApiOutcome.exc msg)).1.last_processed = some p :=
  ⟨rfl, process_image_cursor st p (ApiOutcome.exc msg)⟩

/-- C10: a failing folder scan is absorbed by get_newest_images'
try/except into the empty candidate list; the loop tick on it is
literally the same as on a truly empty folder - the consecutive-empty
counter is incremented, and nothing but the gray idle heartbeat can be
published, never an error status. -/
theorem scan_errors_indistinguishable_from_idle (st : TickState)
    (env : String → ApiOutcome) (ci : ℚ) (msg : String) :
    get_newest_images_io (ScanOutcome.failure msg) st.mon.last_processed st.now 3 = [] ∧
    monitor_tick st (ScanOutcome.failure msg) env ci =
      monitor_tick st (ScanOutcome.ok []) env ci ∧
    (monitor_tick st (ScanOutcome.failure msg) env ci).1.consecutive_empty =
      st.consecutive_empty + 1 ∧
    (∀ ls ∈ (monitor_tick st (ScanOutcome.failure msg) env ci).2, ls.status = "gray") := by
  refine ⟨rfl, rfl, ?_, ?_⟩
  · by_cases h : 30 < st.now - st.last_heartbeat <;>
      simp [monitor_tick, get_newest_images_io, h]
  · by_cases h : 30 < st.now - st.last_heartbeat <;>
      simp [monitor_tick, get_newest_images_io, h]

/-- C1, counterexample to the claim as stated: run_loop initializes
last_heartbeat to 0 (the epoch) while time.time() is far past 30, so
the very first empty tick - at zero seconds of emptiness, well before
any 30-second mark - already publishes a heartbeat; over 35 consecutive
empty ticks at the 1.5s baseline (clock starting at 100s) two
heartbeats are published, not exactly one. -/
theorem heartbeat_claim_false :
    (run_empty_ticks (3/2) 35 ⟨⟨"cam", none, []⟩, 0, 0, 100⟩).headD false = true ∧
    (run_empty_ticks (3/2) 35 ⟨⟨"cam", none, []⟩, 0, 0, 100⟩).count true = 2 := by
  decide

/-- C1 (amended): an empty tick publishes the gray heartbeat exactly
when more than 30 seconds have passed since the last heartbeat publish
- a timer started at the epoch and not tied to the start of emptiness -
and resets that timer; the consecutive-empty counter always increments.
Hence 35 all-empty ticks at the 1.5s baseline publish two heartbeats
from monitor start (ticks 1 and 21), and exactly one - on tick 21,
about 31 seconds in - when the span begins with a freshly reset
heartbeat timer. -/
theorem heartbeat_every_30s_amended :
    (∀ (st : TickState) (env : String → ApiOutcome) (ci : ℚ),
      ((monitor_tick st (ScanOutcome.ok []) env ci).2 ≠ [] ↔
        30 < st.now - st.last_heartbeat) ∧
      (monitor_tick st (ScanOutcome.ok []) env ci).1.consecutive_empty =
        st.consecutive_empty + 1 ∧
      (30 < st.now - st.last_heartbeat →
        (monitor_tick st (ScanOutcome.ok []) env ci).2 = [⟨"gray", [], none⟩] ∧
        (monitor_tick st (ScanOutcome.ok []) env ci).1.last_heartbeat = st.now) ∧
      (¬ 30 < st.now - st.last_heartbeat →
        (monitor_tick st (ScanOutcome.ok []) env ci).2 = [] ∧
        (monitor_tick st (ScanOutcome.ok []) env ci).1.last_heartbeat =
          st.last_heartbeat)) ∧
    (run_empty_ticks (3/2) 35 ⟨⟨"cam", none, []⟩, 0, 0, 100⟩).count true = 2 ∧
    (run_empty_ticks (3/2) 35 ⟨⟨"cam", none, []⟩, 0, 100, 100⟩).count true = 1 ∧
    (run_empty_ticks (3/2) 35 ⟨⟨"cam", none, []⟩, 0, 100, 100⟩).indexOf true = 20 := by
  refine ⟨?_, by decide, by decide, by decide⟩
  intro st env ci
  by_cases h : 30 < st.now - st.last_heartbeat <;>
    simp [monitor_tick, get_newest_images_io, get_newest_images, h]

/-- Witness for heartbeat_every_30s_amended: with 100s elapsed since
the last heartbeat the empty tick publishes the gray heartbeat; with
only 1s elapsed it publishes nothing. -/
theorem heartbeat_every_30s_amended_witness :
    (monitor_tick ⟨⟨"cam", none, []⟩, 0, 0, 100⟩ (ScanOutcome.ok [])
      (fun _ => ApiOutcome.timeout) (3/2)).2 = [⟨"gray", [], none⟩] ∧
    (monitor_tick ⟨⟨"cam", none, []⟩, 0, 99, 100⟩ (ScanOutcome.ok [])
      (fun _ => ApiOutcome.timeout) (3/2)).2 = [] := by
  have h := heartbeat_every_30s_amended
  refine ⟨((h.1 ⟨⟨"cam", none, []⟩, 0, 0, 100⟩ (fun _ => ApiOutcome.timeout) (3/2)).2.2.1
    (by decide)).1, ?_⟩
  exact ((h.1 ⟨⟨"cam", none, []⟩, 0, 99, 100⟩ (fun _ => ApiOutcome.timeout) (3/2)).2.2.2
    (by decide)).1
